import Mathlib

/-!
Verification of the rating/event-log engine of the obsidian-elo-compare
repository against its natural-language specification.

Shallow embedding conventions:
* JavaScript numbers are modelled as real numbers (`ℝ`); the spec itself
  states that IEEE double precision is an implementation detail of the
  ideal real-valued formula.
* `Math.round` is modelled by Mathlib's `round` (both round halves toward
  positive infinity: `round x = ⌊x + 1/2⌋`).
* `Math.pow(10, x)` is modelled by the real power `(10 : ℝ) ^ (x : ℝ)`.
* The TypeScript union type `Outcome = 0 | 0.5 | 1` is modelled by a
  three-constructor inductive type with a numeric view `Outcome.val`.
* Host objects (`TFile`, frontmatter, the UI) are out of scope per the
  specification; only the fields the engine reads are embedded.
* `Math.random()`-driven choices are modelled by an explicit oracle of
  pre-drawn natural numbers, reduced modulo the relevant length (every
  value `Math.floor(Math.random() * n)` can take is reachable this way),
  so theorems quantify over all possible resolutions of the randomness.
-/

/-! ## Constants (src/constants.ts) -/

noncomputable def DEFAULT_RATING : ℝ := 1000

noncomputable def DEFAULT_K_FACTOR : ℝ := 32

def MAX_EVENTS : ℕ := 200

def MAX_AGE_MS : ℤ := 30 * 24 * 60 * 60 * 1000

/-! ## Outcome and the rating update function (src/elo-algorithm.ts) -/

/-- The TypeScript type `Outcome = 0 | 0.5 | 1`, the score for item "a":
`1` means a won, `0` means a lost, `0.5` means a draw. -/
inductive Outcome where
  | lossA
  | draw
  | winA
  deriving DecidableEq

/-- Numeric value of an outcome, as used in the arithmetic of `eloUpdate`. -/
noncomputable def Outcome.val : Outcome → ℝ
  | .lossA => 0
  | .draw => 1 / 2
  | .winA => 1

/-- Embedding of `expectedScore` from src/elo-algorithm.ts:
`1 / (1 + Math.pow(10, (rB - rA) / 400))`. -/
noncomputable def expectedScore (rA rB : ℝ) : ℝ :=
  1 / (1 + (10 : ℝ) ^ ((rB - rA) / 400))

/-- Embedding of `eloUpdate` from src/elo-algorithm.ts (lines 44-57):
`newA = Math.round(rA + k * (sA - eA))`, `newB = Math.round(rB + k * (1 - sA - eB))`
with `eA = expectedScore(rA, rB)` and `eB = 1 - eA`.  No clamping is applied. -/
noncomputable def eloUpdate (rA rB : ℝ) (sA : Outcome) (k : ℝ) : ℤ × ℤ :=
  let eA := expectedScore rA rB
  let eB := 1 - eA
  (round (rA + k * (sA.val - eA)), round (rB + k * (1 - sA.val - eB)))

/-- The update formula exactly as displayed in the specification (section 4.1),
written from the spec's words for comparison with the source embedding:
`expectedA = 1 / (1 + 10^((rB - rA)/400))`, `expectedB = 1 - expectedA`,
`newRA = round(rA + K * (sA - expectedA))`, `newRB = round(rB + K * ((1 - sA) - expectedB))`. -/
noncomputable def eloUpdateSpecFormula (rA rB sA k : ℝ) : ℤ × ℤ :=
  (round (rA + k * (sA - 1 / (1 + (10 : ℝ) ^ ((rB - rA) / 400)))),
   round (rB + k * ((1 - sA) - (1 - 1 / (1 + (10 : ℝ) ^ ((rB - rA) / 400))))))

/-- The expected score of two equal ratings is exactly 1/2. -/
theorem expectedScore_self (r : ℝ) : expectedScore r r = 1 / 2 := by
  unfold expectedScore
  rw [sub_self, zero_div, Real.rpow_zero]
  norm_num

/-- C1: for every pair of real ratings, every outcome in {0, 0.5, 1} and every
K-factor, `eloUpdate` returns exactly the pair of rounded spec formulas
`(round(rA + k*(sA - expectedA)), round(rB + k*((1 - sA) - expectedB)))` with
`expectedA = 1/(1 + 10^((rB - rA)/400))` and `expectedB = 1 - expectedA`;
equality with the unclamped formula shows no clamping is applied to either
component. -/
theorem eloUpdate_matches_spec_formula (rA rB : ℝ) (sA : Outcome) (k : ℝ) :
    eloUpdate rA rB sA k = eloUpdateSpecFormula rA rB sA.val k := by
  simp only [eloUpdate, eloUpdateSpecFormula, expectedScore]

/-- C8: the rating deltas produced by `eloUpdate` are antisymmetric up to
rounding: the absolute value of `(newRA - rA) + (newRB - rB)` is at most 1,
for all ratings, all outcomes and all K-factors. -/
theorem eloUpdate_delta_antisymmetric (rA rB k : ℝ) (sA : Outcome) :
    |(((eloUpdate rA rB sA k).1 : ℝ) - rA) + (((eloUpdate rA rB sA k).2 : ℝ) - rB)| ≤ 1 := by
  simp only [eloUpdate]
  set e := expectedScore rA rB with he
  set x := rA + k * (sA.val - e) with hx
  set y := rB + k * (1 - sA.val - (1 - e)) with hy
  have hxy : x + y = rA + rB := by rw [hx, hy]; ring
  have hx1 : |((round x : ℤ) : ℝ) - x| ≤ 1 / 2 := by
    rw [abs_sub_comm]; exact abs_sub_round x
  have hy1 : |((round y : ℤ) : ℝ) - y| ≤ 1 / 2 := by
    rw [abs_sub_comm]; exact abs_sub_round y
  have key : (((round x : ℤ) : ℝ) - rA) + (((round y : ℤ) : ℝ) - rB)
      = (((round x : ℤ) : ℝ) - x) + (((round y : ℤ) : ℝ) - y) := by
    have h := hxy; linarith
  rw [key]
  have habs := abs_add (((round x : ℤ) : ℝ) - x) (((round y : ℤ) : ℝ) - y)
  linarith

/-- C7 counterexample: at the equal (non-integer) ratings rA = rB = 1/2, a draw
does not leave the ratings unchanged: `eloUpdate` rounds 1/2 up to 1, so the
claim "a draw on equal ratings yields newRA == rA" fails at this input. -/
theorem eloUpdate_equal_draw_counterexample :
    eloUpdate (1 / 2) (1 / 2) Outcome.draw 32 = (1, 1) ∧
      (((eloUpdate (1 / 2) (1 / 2) Outcome.draw 32).1 : ℝ) ≠ (1 / 2 : ℝ)) := by
  have h : eloUpdate (1 / 2) (1 / 2) Outcome.draw 32 = (1, 1) := by
    simp only [eloUpdate, expectedScore_self, Outcome.val]
    norm_num [round_eq]
  refine ⟨h, ?_⟩
  rw [h]
  norm_num

/-- C7 (amended to integer ratings): for every pair of equal integer ratings, a
draw leaves both ratings unchanged, and a win for the first item with K = 32
adds 16 to the first rating and subtracts 16 from the second; concretely,
ratings 1000 and 1000 with a win give (1016, 984). -/
theorem eloUpdate_equal_integer_ratings (r : ℤ) :
    eloUpdate (r : ℝ) (r : ℝ) Outcome.draw 32 = (r, r) ∧
      eloUpdate (r : ℝ) (r : ℝ) Outcome.winA 32 = (r + 16, r - 16) ∧
      eloUpdate 1000 1000 Outcome.winA 32 = (1016, 984) := by
  have hwin : ∀ s : ℤ, eloUpdate (s : ℝ) (s : ℝ) Outcome.winA 32 = (s + 16, s - 16) := by
    intro s
    simp only [eloUpdate, expectedScore_self, Outcome.val]
    have e1 : ((s : ℝ) + 32 * (1 - 1 / 2)) = ((s + 16 : ℤ) : ℝ) := by push_cast; ring
    have e2 : ((s : ℝ) + 32 * (1 - 1 - (1 - 1 / 2))) = ((s - 16 : ℤ) : ℝ) := by push_cast; ring
    rw [e1, e2, round_intCast, round_intCast]
  refine ⟨?_, hwin r, ?_⟩
  · simp only [eloUpdate, expectedScore_self, Outcome.val]
    have e1 : ((r : ℝ) + 32 * (1 / 2 - 1 / 2)) = ((r : ℤ) : ℝ) := by ring
    have e2 : ((r : ℝ) + 32 * (1 - 1 / 2 - (1 - 1 / 2))) = ((r : ℤ) : ℝ) := by ring
    rw [e1, e2, round_intCast]
  · have h := hwin 1000
    norm_num at h
    exact_mod_cast h

/-! ## Data model (src/types.ts)

Host-API fields (`file : TFile`, `frontmatter`) are out of scope per the
specification; only the engine-visible fields are embedded. -/

structure SelectedFile where
  id : String
  name : String
  rating : ℝ
  games : ℕ
  pool : String
  last : Option String

structure EloEvent where
  t : ℤ
  a : String
  b : String
  s : Outcome
  deriving DecidableEq

structure FileEloData where
  rating : ℝ
  games : ℕ
  pool : String
  last : Option String

/-! JavaScript string-keyed records (`Record<string, T>`) and `Map<string, T>`
are modelled as ordered association lists, with `alookup` for property access,
`ainsert` for `{...m, [k]: v}`-style set (replace in place if the key exists,
append otherwise — JS objects keep insertion order), and `aupdate` for
mutating the value stored at an existing key. -/

def alookup {α : Type} : List (String × α) → String → Option α
  | [], _ => none
  | p :: ps, k => if p.1 = k then some p.2 else alookup ps k

def ainsert {α : Type} (m : List (String × α)) (k : String) (v : α) : List (String × α) :=
  match alookup m k with
  | some _ => m.map (fun p => if p.1 = k then (k, v) else p)
  | none => m ++ [(k, v)]

def aupdate {α : Type} (m : List (String × α)) (k : String) (f : α → α) : List (String × α) :=
  m.map (fun p => if p.1 = k then (p.1, f p.2) else p)

theorem alookup_append_of_none {α : Type} {m : List (String × α)} {k : String}
    (m' : List (String × α)) (h : alookup m k = none) :
    alookup (m ++ m') k = alookup m' k := by
  induction m with
  | nil => rfl
  | cons p ps ih =>
    simp only [alookup] at h ⊢
    by_cases hp : p.1 = k
    · simp [hp] at h
    · simp only [if_neg hp] at h ⊢
      exact ih h

theorem alookup_map_replace_self {α : Type} {m : List (String × α)} {k : String}
    (v : α) {w : α} (h : alookup m k = some w) :
    alookup (m.map fun p => if p.1 = k then (k, v) else p) k = some v := by
  induction m with
  | nil => simp [alookup] at h
  | cons p ps ih =>
    by_cases hp : p.1 = k
    · simp [List.map_cons, if_pos hp, alookup]
    · simp only [alookup, if_neg hp] at h
      simp only [List.map_cons, if_neg hp, alookup]
      exact ih h

theorem alookup_map_replace_of_ne {α : Type} (m : List (String × α)) {k k' : String}
    (v : α) (h : k' ≠ k) :
    alookup (m.map fun p => if p.1 = k then (k, v) else p) k' = alookup m k' := by
  induction m with
  | nil => rfl
  | cons p ps ih =>
    simp only [List.map_cons]
    by_cases hp : p.1 = k
    · have hkne : ¬k = k' := fun hkk => h hkk.symm
      have hpk : ¬p.1 = k' := by rw [hp]; exact hkne
      simp only [if_pos hp, alookup, if_neg hkne, if_neg hpk]
      exact ih
    · simp only [if_neg hp, alookup]
      by_cases hpk : p.1 = k'
      · simp [hpk]
      · simp only [if_neg hpk]
        exact ih

theorem alookup_ainsert_self {α : Type} (m : List (String × α)) (k : String) (v : α) :
    alookup (ainsert m k v) k = some v := by
  unfold ainsert
  cases h : alookup m k with
  | none =>
    rw [alookup_append_of_none _ h]
    simp [alookup]
  | some w => exact alookup_map_replace_self v h

theorem alookup_ainsert_of_ne {α : Type} (m : List (String × α)) {k k' : String} (v : α)
    (h : k' ≠ k) :
    alookup (ainsert m k v) k' = alookup m k' := by
  unfold ainsert
  cases hm : alookup m k with
  | none =>
    cases hk' : alookup m k' with
    | none =>
      rw [alookup_append_of_none _ hk']
      simp only [alookup, if_neg (fun hkk : k = k' => h hkk.symm)]
    | some w =>
      clear hm
      induction m with
      | nil => simp [alookup] at hk'
      | cons p ps ih =>
        simp only [alookup, List.cons_append] at hk' ⊢
        by_cases hp : p.1 = k'
        · simpa [hp] using hk'
        · simp only [if_neg hp] at hk' ⊢
          exact ih hk'
  | some w => exact alookup_map_replace_of_ne m v h

theorem alookup_aupdate_self {α : Type} (m : List (String × α)) (k : String) (f : α → α) :
    alookup (aupdate m k f) k = (alookup m k).map f := by
  induction m with
  | nil => rfl
  | cons p ps ih =>
    unfold aupdate at ih ⊢
    simp only [List.map_cons, alookup]
    by_cases hp : p.1 = k
    · simp [hp, alookup]
    · simp only [if_neg hp, alookup, if_neg hp]
      exact ih

theorem alookup_aupdate_of_ne {α : Type} (m : List (String × α)) {k k' : String}
    (f : α → α) (h : k' ≠ k) :
    alookup (aupdate m k f) k' = alookup m k' := by
  induction m with
  | nil => rfl
  | cons p ps ih =>
    unfold aupdate at ih ⊢
    simp only [List.map_cons, alookup]
    by_cases hp : p.1 = k
    · simp only [if_pos hp, alookup]
      have : ¬p.1 = k' := hp ▸ fun hkk => h hkk.symm
      simp only [if_neg this, if_neg (hp ▸ this)]
      exact ih
    · simp only [if_neg hp, alookup]
      by_cases hpk : p.1 = k'
      · simp [hpk]
      · simp only [if_neg hpk]
        exact ih

/-- Embedding of `StoreType` from src/types.ts: version tag, append-only event
log, and the materialized ratings table keyed by item id. -/
structure StoreType where
  version : ℕ
  events : List EloEvent
  ratings : List (String × FileEloData)

/-! ## Pair selection (src/helpers/pair-selection.ts) -/

/-- Embedding of `findMinimumGames`: scans the items for the smallest games
count, starting from `Infinity` (modelled as the top element of `WithTop ℕ`).
The source's `item.games ?? 0` is the identity here because `games` is a
non-optional field of `SelectedFile` in src/types.ts. -/
def findMinimumGames (items : List SelectedFile) : WithTop ℕ :=
  items.foldl (fun m it => min m (it.games : WithTop ℕ)) ⊤

/-- Embedding of `items[idx]?.games ?? 0`: the games count at an index,
defaulting to 0 out of range. -/
def gamesAt (items : List SelectedFile) (i : ℕ) : ℕ :=
  ((items.get? i).map (·.games)).getD 0

/-- Embedding of `getItemsWithGames`: the indices whose games count equals the
target (the source pairs each index with its item, which is `items[index]`;
only the index is consumed downstream). -/
def getItemsWithGames (items : List SelectedFile) (target : WithTop ℕ) : List ℕ :=
  (List.range items.length).filter (fun i => decide ((gamesAt items i : WithTop ℕ) = target))

/-- Pre-drawn resolutions of the `Math.random()` calls inside `pickPair`.
Each draw `Math.floor(Math.random() * n)` is recovered as `value % n`, which
ranges over exactly the same set `{0, ..., n-1}`. -/
structure RandOracle where
  pickMin : ℕ
  pickOther : ℕ
  fbFirst : ℕ
  fbRest : List ℕ

/-- The first pick of `pickPair` (src/helpers/pair-selection.ts lines 52-54):
a random element of the minimum-games index set. -/
def selectedIndexOf (items : List SelectedFile) (o : RandOracle) : ℕ :=
  let itemsWithMinGames := getItemsWithGames items (findMinimumGames items)
  itemsWithMinGames.getD (o.pickMin % itemsWithMinGames.length) 0

/-- The candidate pool for the second pick (lines 56-68): all other indices
paired with their games counts, sorted by games ascending, keeping the lower
half (ceiling division). -/
def otherCandidates (items : List SelectedFile) (o : RandOracle) : List (ℕ × ℕ) :=
  let selectedIndex := selectedIndexOf items o
  let otherIndices :=
    ((List.range items.length).filter (fun i => decide (i ≠ selectedIndex))).map
      (fun idx => (idx, gamesAt items idx))
  let sorted := List.insertionSort (fun p q : ℕ × ℕ => p.2 ≤ q.2) otherIndices
  let halfPoint := (sorted.length + 1) / 2
  sorted.take halfPoint

/-- The second pick (line 70): a random candidate's index. -/
def otherIndexOf (items : List SelectedFile) (o : RandOracle) : ℕ :=
  let candidates := otherCandidates items o
  (candidates.getD (o.pickOther % candidates.length) (0, 0)).1

/-- Embedding of `pickPair` from src/helpers/pair-selection.ts (lines 33-73),
with the branch-local computations factored into the named definitions above.
The defensive fallback's unbounded `while (b === a)` retry loop is modelled by
searching the pre-drawn oracle stream; `none` stands for a run of the loop
that never exits (the fallback is proved unreachable for nonempty item
lists). -/
def pickPair (items : List SelectedFile) (o : RandOracle) : Option (ℕ × ℕ) :=
  if items.length < 2 then some (0, 0)
  else if getItemsWithGames items (findMinimumGames items) = [] then
    let a := o.fbFirst % items.length
    match o.fbRest.find? (fun r => decide (r % items.length ≠ a)) with
    | some r => some (a, r % items.length)
    | none => none
  else some (selectedIndexOf items o, otherIndexOf items o)

theorem foldl_min_games_le (l : List SelectedFile) (acc : WithTop ℕ) :
    (∀ it ∈ l, l.foldl (fun m it => min m (it.games : WithTop ℕ)) acc ≤ (it.games : WithTop ℕ))
      ∧ l.foldl (fun m it => min m (it.games : WithTop ℕ)) acc ≤ acc := by
  induction l generalizing acc with
  | nil => exact ⟨by simp, le_refl _⟩
  | cons p ps ih =>
    refine ⟨?_, ?_⟩
    · intro it hit
      rcases List.mem_cons.mp hit with hh | hmem
      · subst hh
        exact le_trans (ih (min acc (it.games : WithTop ℕ))).2 (min_le_right _ _)
      · exact (ih (min acc (p.games : WithTop ℕ))).1 it hmem
    · exact le_trans (ih (min acc (p.games : WithTop ℕ))).2 (min_le_left _ _)

theorem foldl_min_games_attained (l : List SelectedFile) (acc : WithTop ℕ) :
    l.foldl (fun m it => min m (it.games : WithTop ℕ)) acc = acc
      ∨ ∃ it ∈ l, l.foldl (fun m it => min m (it.games : WithTop ℕ)) acc = (it.games : WithTop ℕ) := by
  induction l generalizing acc with
  | nil => exact Or.inl rfl
  | cons p ps ih =>
    rw [List.foldl_cons]
    rcases ih (min acc (p.games : WithTop ℕ)) with heq | ⟨it, hmem, heq⟩
    · rcases le_total acc (p.games : WithTop ℕ) with hle | hle
      · exact Or.inl (by rw [heq, min_eq_left hle])
      · exact Or.inr ⟨p, List.mem_cons_self _ _, by rw [heq, min_eq_right hle]⟩
    · exact Or.inr ⟨it, List.mem_cons_of_mem _ hmem, heq⟩

theorem mem_getItemsWithGames {items : List SelectedFile} {target : WithTop ℕ} {i : ℕ}
    (h : i ∈ getItemsWithGames items target) :
    i < items.length ∧ (gamesAt items i : WithTop ℕ) = target := by
  have h' := List.mem_filter.mp h
  exact ⟨List.mem_range.mp h'.1, of_decide_eq_true h'.2⟩

theorem getItemsWithGames_min_ne_nil {items : List SelectedFile} (h : items ≠ []) :
    getItemsWithGames items (findMinimumGames items) ≠ [] := by
  rcases foldl_min_games_attained items ⊤ with heq | ⟨it, hmem, heq⟩
  · obtain ⟨p, hp⟩ := List.exists_mem_of_ne_nil items h
    have hle := (foldl_min_games_le items ⊤).1 p hp
    rw [heq] at hle
    exact absurd (le_antisymm le_top hle) WithTop.coe_ne_top
  · obtain ⟨i, hget⟩ := List.mem_iff_get?.mp hmem
    have hlt : i < items.length := by
      rcases List.get?_eq_some.mp hget with ⟨hl, _⟩
      exact hl
    have hg : gamesAt items i = it.games := by
      unfold gamesAt
      rw [hget]
      rfl
    have : i ∈ getItemsWithGames items (findMinimumGames items) := by
      refine List.mem_filter.mpr ⟨List.mem_range.mpr hlt, decide_eq_true ?_⟩
      rw [hg]
      exact heq.symm
    exact List.ne_nil_of_mem this

theorem getD_mem_of_lt {α : Type} {l : List α} {n : ℕ} (d : α) (h : n < l.length) :
    l.getD n d ∈ l := by
  rw [List.getD_eq_getElem?_getD, List.getElem?_eq_getElem h]
  exact List.getElem_mem h

theorem selectedIndexOf_mem {items : List SelectedFile} (o : RandOracle) (h : items ≠ []) :
    selectedIndexOf items o ∈ getItemsWithGames items (findMinimumGames items) := by
  unfold selectedIndexOf
  exact getD_mem_of_lt 0 (Nat.mod_lt _ (List.length_pos.mpr (getItemsWithGames_min_ne_nil h)))

theorem otherCandidates_sound {items : List SelectedFile} (o : RandOracle)
    (h2 : 2 ≤ items.length) :
    otherCandidates items o ≠ [] ∧
      ∀ c ∈ otherCandidates items o, c.1 < items.length ∧ c.1 ≠ selectedIndexOf items o := by
  simp only [otherCandidates]
  set si := selectedIndexOf items o with hsi
  set others := ((List.range items.length).filter (fun i => decide (i ≠ si))).map
      (fun idx => (idx, gamesAt items idx)) with hothers
  set srt := List.insertionSort (fun p q : ℕ × ℕ => p.2 ≤ q.2) others with hsrt
  have hj0 : ∃ j0, j0 < items.length ∧ j0 ≠ si := by
    by_cases hz : si = 0
    · exact ⟨1, by omega, by rw [hz]; exact one_ne_zero⟩
    · exact ⟨0, by omega, fun hc => hz hc.symm⟩
  obtain ⟨j0, hj0lt, hj0ne⟩ := hj0
  have hmem : (j0, gamesAt items j0) ∈ others := by
    rw [hothers]
    exact List.mem_map.mpr
      ⟨j0, List.mem_filter.mpr ⟨List.mem_range.mpr hj0lt, decide_eq_true hj0ne⟩, rfl⟩
  have hsrtpos : 0 < srt.length := by
    rw [hsrt, (List.perm_insertionSort _ _).length_eq]
    exact List.length_pos.mpr (List.ne_nil_of_mem hmem)
  constructor
  · apply List.length_pos.mp
    rw [List.length_take]
    omega
  · intro c hc
    have h1 : c ∈ srt := (List.take_sublist _ _).subset hc
    have h2' : c ∈ others := (List.perm_insertionSort _ _).mem_iff.mp h1
    obtain ⟨idx, hidxmem, hidx⟩ := List.mem_map.mp h2'
    have hf := List.mem_filter.mp hidxmem
    rw [← hidx]
    exact ⟨List.mem_range.mp hf.1, of_decide_eq_true hf.2⟩

/-- C2: for every list with at least two items and every resolution of the
internal random choices, `pickPair` returns two distinct in-range indices, the
first of which indexes an item whose games count equals the minimum over the
whole list; for fewer than two items it returns the degenerate pair (0, 0). -/
theorem pickPair_spec (items : List SelectedFile) (o : RandOracle) :
    (2 ≤ items.length →
      ∃ i j, pickPair items o = some (i, j) ∧ i ≠ j ∧ i < items.length ∧ j < items.length ∧
        (gamesAt items i : WithTop ℕ) = findMinimumGames items ∧
        ∀ it' ∈ items, gamesAt items i ≤ it'.games) ∧
    (items.length < 2 → pickPair items o = some (0, 0)) := by
  constructor
  · intro h2
    have hne : items ≠ [] := List.length_pos.mp (by omega)
    have hmne := getItemsWithGames_min_ne_nil hne
    obtain ⟨hsilt, hsig⟩ := mem_getItemsWithGames (selectedIndexOf_mem o hne)
    obtain ⟨hcne, hcall⟩ := otherCandidates_sound o h2
    have hoprops : otherIndexOf items o < items.length ∧
        otherIndexOf items o ≠ selectedIndexOf items o := by
      unfold otherIndexOf
      have hclen : 0 < (otherCandidates items o).length := List.length_pos.mpr hcne
      exact hcall _ (getD_mem_of_lt (0, 0) (Nat.mod_lt _ hclen))
    refine ⟨selectedIndexOf items o, otherIndexOf items o, ?_,
      fun hc => hoprops.2 hc.symm, hsilt, hoprops.1, hsig, ?_⟩
    · unfold pickPair
      rw [if_neg (not_lt.mpr h2), if_neg hmne]
    · intro it' hit'
      have hle : findMinimumGames items ≤ (it'.games : WithTop ℕ) :=
        (foldl_min_games_le items ⊤).1 it' hit'
      rw [← hsig] at hle
      exact WithTop.coe_le_coe.mp hle
  · intro hlt
    unfold pickPair
    rw [if_pos hlt]

/-- Concrete two-item pool used to witness the pair-selection theorem. -/
noncomputable def sampleItems : List SelectedFile :=
  [⟨"itemA.md", "itemA", 1000, 0, "default", none⟩,
   ⟨"itemB.md", "itemB", 1000, 0, "default", none⟩]

/-- Concrete randomness resolution used to witness the pair-selection theorem. -/
def sampleOracle : RandOracle := ⟨0, 0, 0, []⟩

/-- C2 witness: the theorem instantiated at a concrete two-item list and a
concrete randomness resolution, with the hypothesis discharged by
computation. -/
theorem pickPair_spec_witness :
    2 ≤ sampleItems.length ∧
      ∃ i j, pickPair sampleItems sampleOracle = some (i, j) ∧ i ≠ j ∧
        i < sampleItems.length ∧ j < sampleItems.length ∧
        (gamesAt sampleItems i : WithTop ℕ) = findMinimumGames sampleItems ∧
        ∀ it' ∈ sampleItems, gamesAt sampleItems i ≤ it'.games :=
  ⟨by decide, (pickPair_spec sampleItems sampleOracle).1 (by decide)⟩

/-! ## Event construction, log retention, ratings update (src/helpers/elo-updates.ts) -/

/-- Embedding of `createEloEvent` (lines 9-22): the event recorded for a user
decision; the outcome is 1 if the winner is item a, else 0 — never 0.5.
`Date.now()` is passed in as `now`. -/
def createEloEvent (itemA itemB : SelectedFile) (winnerIndex aIndex : ℕ) (now : ℤ) : EloEvent :=
  { t := now, a := itemA.id, b := itemB.id,
    s := if winnerIndex = aIndex then Outcome.winA else Outcome.lossA }

/-- The last `n` elements of a list, i.e. `Array.prototype.slice(-n)` (the
whole list when it is shorter than `n`). -/
def takeLast {α : Type} (n : ℕ) (l : List α) : List α := l.drop (l.length - n)

/-- Embedding of `filterRecentEvents` (lines 27-32): keep events strictly
younger than 30 days, then keep only the last 200 — age filter first, then
count truncation keeping the tail. `Date.now()` is passed in as `now`. -/
def filterRecentEvents (now : ℤ) (events : List EloEvent) : List EloEvent :=
  takeLast MAX_EVENTS (events.filter (fun e => decide (now - e.t < MAX_AGE_MS)))

/-- Embedding of `updateStoreRatings` (lines 100-125): copy the ratings table
and write fresh records for the two involved items. The current date string is
passed in as `nowISO`. -/
def updateStoreRatings (store : StoreType) (itemA itemB : SelectedFile)
    (newRatingA newRatingB : ℝ) (nowISO : String) : List (String × FileEloData) :=
  ainsert (ainsert store.ratings itemA.id
      ⟨newRatingA, itemA.games + 1, itemA.pool, some nowISO⟩)
    itemB.id ⟨newRatingB, itemB.games + 1, itemB.pool, some nowISO⟩

/-! ## Store effect of a user decision (src/EloCompareComponent.tsx, handleWin,
lines 805-886) -/

/-- Embedding of the store-updating part of `handleWin`: look up the current
pair, compute the Elo update, rewrite the two ratings records (the inline
`{...store.ratings}` plus two keyed assignments, as in `updateStoreRatings`),
build the new event and append it under the retention policy (the inline
filter + `slice(-MAX_EVENTS)` is the same expression as `filterRecentEvents`).
When either index of the pair is out of range the handler returns early with
the store unchanged (the `if (!a || !b)` safety check); the `if (!store)`
guard is modelled by applying this function only to a loaded store. -/
noncomputable def handleWinStore (st : StoreType) (items : List SelectedFile)
    (pair : ℕ × ℕ) (winnerIndex : ℕ) (k : ℝ) (now : ℤ) (nowISO : String) : StoreType :=
  match items.get? pair.1, items.get? pair.2 with
  | some a, some b =>
    let aWins : Outcome := if winnerIndex = pair.1 then Outcome.winA else Outcome.lossA
    let res := eloUpdate a.rating b.rating aWins k
    let newRatings :=
      ainsert (ainsert st.ratings a.id ⟨(res.1 : ℝ), a.games + 1, a.pool, some nowISO⟩)
        b.id ⟨(res.2 : ℝ), b.games + 1, b.pool, some nowISO⟩
    let newEvent : EloEvent := ⟨now, a.id, b.id, aWins⟩
    ⟨1, filterRecentEvents now (st.events ++ [newEvent]), newRatings⟩
  | _, _ => st

theorem takeLast_length_le {α : Type} (n : ℕ) (l : List α) : (takeLast n l).length ≤ n := by
  unfold takeLast
  rw [List.length_drop]
  omega

theorem takeLast_getLast_concat {α : Type} {n : ℕ} (hn : 0 < n) (l : List α) (e : α) :
    (takeLast n (l ++ [e])).getLast? = some e := by
  unfold takeLast
  have hlen : (l ++ [e]).length = l.length + 1 := by simp
  rw [hlen]
  have hle : l.length + 1 - n ≤ l.length := by omega
  rw [List.drop_append_of_le_length hle, List.getLast?_concat]

/-- C3: the user-decision handler produces an event log equal to the old log
with the new event appended, filtered to events strictly younger than 30 days
and then truncated to the most recent 200 (age filter first, then count
truncation keeping the tail); the log never exceeds 200 events and always
still ends with the newly appended event. -/
theorem handleWin_event_log_spec (st : StoreType) (items : List SelectedFile)
    (pair : ℕ × ℕ) (winnerIndex : ℕ) (k : ℝ) (now : ℤ) (nowISO : String)
    (a b : SelectedFile) (ha : items.get? pair.1 = some a) (hb : items.get? pair.2 = some b) :
    (handleWinStore st items pair winnerIndex k now nowISO).events =
        takeLast MAX_EVENTS
          ((st.events ++ [createEloEvent a b winnerIndex pair.1 now]).filter
            (fun e => decide (now - e.t < MAX_AGE_MS))) ∧
      (handleWinStore st items pair winnerIndex k now nowISO).events.length ≤ MAX_EVENTS ∧
      (handleWinStore st items pair winnerIndex k now nowISO).events.getLast? =
        some (createEloEvent a b winnerIndex pair.1 now) := by
  have hev : (handleWinStore st items pair winnerIndex k now nowISO).events =
      filterRecentEvents now (st.events ++ [createEloEvent a b winnerIndex pair.1 now]) := by
    unfold handleWinStore createEloEvent
    rw [ha, hb]
  refine ⟨hev, ?_, ?_⟩
  · rw [hev]
    exact takeLast_length_le _ _
  · rw [hev]
    unfold filterRecentEvents
    have hfresh : (decide (now - (createEloEvent a b winnerIndex pair.1 now).t < MAX_AGE_MS)) =
        true := by
      simp only [createEloEvent, decide_eq_true_eq, MAX_AGE_MS]
      omega
    rw [List.filter_append,
      show ([createEloEvent a b winnerIndex pair.1 now].filter
          (fun e => decide (now - e.t < MAX_AGE_MS)) =
        [createEloEvent a b winnerIndex pair.1 now]) by simp [hfresh]]
    exact takeLast_getLast_concat (by norm_num [MAX_EVENTS]) _ _

/-- C3 witness: the event-log theorem applied to a concrete store, item list,
pair and timestamp, with both lookups discharged by computation. -/
theorem handleWin_event_log_spec_witness :
    sampleItems.get? 0 = some ⟨"itemA.md", "itemA", 1000, 0, "default", none⟩ ∧
      sampleItems.get? 1 = some ⟨"itemB.md", "itemB", 1000, 0, "default", none⟩ ∧
      ((handleWinStore ⟨1, [], []⟩ sampleItems (0, 1) 0 32 86400000 "2026-01-01").events =
          takeLast MAX_EVENTS
            (((⟨1, [], []⟩ : StoreType).events ++
                [createEloEvent ⟨"itemA.md", "itemA", 1000, 0, "default", none⟩
                  ⟨"itemB.md", "itemB", 1000, 0, "default", none⟩ 0 (0, 1).1 86400000]).filter
              (fun e => decide (86400000 - e.t < MAX_AGE_MS))) ∧
        (handleWinStore ⟨1, [], []⟩ sampleItems (0, 1) 0 32 86400000 "2026-01-01").events.length ≤
          MAX_EVENTS ∧
        (handleWinStore ⟨1, [], []⟩ sampleItems (0, 1) 0 32 86400000 "2026-01-01").events.getLast? =
          some (createEloEvent ⟨"itemA.md", "itemA", 1000, 0, "default", none⟩
            ⟨"itemB.md", "itemB", 1000, 0, "default", none⟩ 0 (0, 1).1 86400000)) :=
  ⟨rfl, rfl,
    handleWin_event_log_spec ⟨1, [], []⟩ sampleItems (0, 1) 0 32 86400000 "2026-01-01"
      ⟨"itemA.md", "itemA", 1000, 0, "default", none⟩
      ⟨"itemB.md", "itemB", 1000, 0, "default", none⟩ rfl rfl⟩

/-- C6: after a recorded outcome, the materialized ratings table differs from
the previous one at exactly the keys of the two involved items — each mapped
to its new rating, incremented games count, pool and last-compared date —
while every other key keeps its previous record. -/
theorem updateStoreRatings_spec (store : StoreType) (a b : SelectedFile)
    (newRatingA newRatingB : ℝ) (nowISO : String) (hne : a.id ≠ b.id) :
    alookup (updateStoreRatings store a b newRatingA newRatingB nowISO) a.id =
        some ⟨newRatingA, a.games + 1, a.pool, some nowISO⟩ ∧
      alookup (updateStoreRatings store a b newRatingA newRatingB nowISO) b.id =
        some ⟨newRatingB, b.games + 1, b.pool, some nowISO⟩ ∧
      ∀ key, key ≠ a.id → key ≠ b.id →
        alookup (updateStoreRatings store a b newRatingA newRatingB nowISO) key =
          alookup store.ratings key := by
  unfold updateStoreRatings
  refine ⟨?_, alookup_ainsert_self _ _ _, ?_⟩
  · rw [alookup_ainsert_of_ne _ _ hne, alookup_ainsert_self]
  · intro key hka hkb
    rw [alookup_ainsert_of_ne _ _ hkb, alookup_ainsert_of_ne _ _ hka]

/-- C6 witness: the frame theorem applied to a concrete store with an
unrelated pre-existing record and a concrete pair of distinct items. -/
theorem updateStoreRatings_spec_witness :
    ("itemA.md" : String) ≠ "itemB.md" ∧
      (alookup (updateStoreRatings ⟨1, [], [("other.md", ⟨900, 3, "default", none⟩)]⟩
            ⟨"itemA.md", "itemA", 1000, 0, "default", none⟩
            ⟨"itemB.md", "itemB", 1000, 0, "default", none⟩ 1016 984 "2026-01-01") "itemA.md" =
          some ⟨1016, 0 + 1, "default", some "2026-01-01"⟩ ∧
        alookup (updateStoreRatings ⟨1, [], [("other.md", ⟨900, 3, "default", none⟩)]⟩
            ⟨"itemA.md", "itemA", 1000, 0, "default", none⟩
            ⟨"itemB.md", "itemB", 1000, 0, "default", none⟩ 1016 984 "2026-01-01") "itemB.md" =
          some ⟨984, 0 + 1, "default", some "2026-01-01"⟩ ∧
        ∀ key, key ≠ "itemA.md" → key ≠ "itemB.md" →
          alookup (updateStoreRatings ⟨1, [], [("other.md", ⟨900, 3, "default", none⟩)]⟩
              ⟨"itemA.md", "itemA", 1000, 0, "default", none⟩
              ⟨"itemB.md", "itemB", 1000, 0, "default", none⟩ 1016 984 "2026-01-01") key =
            alookup (⟨1, [], [("other.md", ⟨900, 3, "default", none⟩)]⟩ : StoreType).ratings key) :=
  ⟨by decide,
    updateStoreRatings_spec ⟨1, [], [("other.md", ⟨900, 3, "default", none⟩)]⟩
      ⟨"itemA.md", "itemA", 1000, 0, "default", none⟩
      ⟨"itemB.md", "itemB", 1000, 0, "default", none⟩ 1016 984 "2026-01-01" (by decide)⟩

/-! ## Stores reachable through recorded outcomes -/

/-- The stores reachable from the empty store by recording user decisions
through the `handleWin` store effect. -/
inductive ReachableStore : StoreType → Prop where
  | empty : ReachableStore ⟨1, [], []⟩
  | step (st : StoreType) (items : List SelectedFile) (pair : ℕ × ℕ)
      (winnerIndex : ℕ) (k : ℝ) (now : ℤ) (nowISO : String) :
      ReachableStore st → ReachableStore (handleWinStore st items pair winnerIndex k now nowISO)

set_option maxRecDepth 4000 in
theorem handleWinStore_events_cases (st : StoreType) (items : List SelectedFile)
    (pair : ℕ × ℕ) (winnerIndex : ℕ) (k : ℝ) (now : ℤ) (nowISO : String) :
    ∀ e ∈ (handleWinStore st items pair winnerIndex k now nowISO).events,
      e ∈ st.events ∨ e.s ≠ Outcome.draw := by
  intro e he
  unfold handleWinStore at he
  cases hga : items.get? pair.1 with
  | none =>
    rw [hga] at he
    exact Or.inl he
  | some a =>
    cases hgb : items.get? pair.2 with
    | none =>
      rw [hga, hgb] at he
      exact Or.inl he
    | some b =>
      rw [hga, hgb] at he
      have he2 : e ∈ filterRecentEvents now
          (st.events ++
            [⟨now, a.id, b.id, if winnerIndex = pair.1 then Outcome.winA else Outcome.lossA⟩]) :=
        he
      unfold filterRecentEvents takeLast at he2
      have he3 := List.mem_filter.mp (List.drop_subset _ _ he2)
      rcases List.mem_append.mp he3.1 with hl | hr
      · exact Or.inl hl
      · right
        rcases List.mem_singleton.mp hr with rfl
        by_cases hw : winnerIndex = pair.1 <;> simp [hw]

/-- C10: every event constructed for a user decision carries outcome 1 or 0
(1 exactly when the winner is the first item of the pair), never the draw
outcome 0.5 that the event data model otherwise admits; consequently in every
store reachable from the empty store through recorded outcomes, no stored
event is a draw. -/
theorem recorded_events_never_draw (itemA itemB : SelectedFile)
    (winnerIndex aIndex : ℕ) (now : ℤ) :
    ((createEloEvent itemA itemB winnerIndex aIndex now).s =
        if winnerIndex = aIndex then Outcome.winA else Outcome.lossA) ∧
      (createEloEvent itemA itemB winnerIndex aIndex now).s ≠ Outcome.draw ∧
      ∀ st : StoreType, ReachableStore st → ∀ e ∈ st.events, e.s ≠ Outcome.draw := by
  refine ⟨rfl, ?_, ?_⟩
  · unfold createEloEvent
    by_cases hw : winnerIndex = aIndex <;> simp [hw]
  · intro st hst
    induction hst with
    | empty =>
      intro e he
      simp at he
    | step st' items pair winnerIndex' k now' nowISO' hst' ih =>
      intro e he
      rcases handleWinStore_events_cases st' items pair winnerIndex' k now' nowISO' e he with
        hmem | hnd
      · exact ih e hmem
      · exact hnd

/-- C10 witness: the invariant applied to a concrete event construction and to
a concrete reachable store (one recorded outcome after the empty store), the
reachability hypothesis discharged by the constructors. -/
theorem recorded_events_never_draw_witness :
    ((createEloEvent ⟨"itemA.md", "itemA", 1000, 0, "default", none⟩
          ⟨"itemB.md", "itemB", 1000, 0, "default", none⟩ 0 0 5).s ≠ Outcome.draw) ∧
      ReachableStore (handleWinStore ⟨1, [], []⟩ sampleItems (0, 1) 0 32 86400000 "2026-01-01") ∧
      ∀ e ∈ (handleWinStore ⟨1, [], []⟩ sampleItems (0, 1) 0 32 86400000 "2026-01-01").events,
        e.s ≠ Outcome.draw :=
  ⟨(recorded_events_never_draw ⟨"itemA.md", "itemA", 1000, 0, "default", none⟩
      ⟨"itemB.md", "itemB", 1000, 0, "default", none⟩ 0 0 5).2.1,
    ReachableStore.step _ sampleItems (0, 1) 0 32 86400000 "2026-01-01" ReachableStore.empty,
    (recorded_events_never_draw ⟨"itemA.md", "itemA", 1000, 0, "default", none⟩
        ⟨"itemB.md", "itemB", 1000, 0, "default", none⟩ 0 0 5).2.2 _
      (ReachableStore.step _ sampleItems (0, 1) 0 32 86400000 "2026-01-01"
        ReachableStore.empty)⟩

/-! ## History reconstruction (reconstructHistoryFromEvents, and the identical
loadHistoryFromEvents in src/EloCompareComponent.tsx lines 728-803) -/

/-- Embedding of `HistoryType` from src/types.ts. -/
structure HistoryType where
  winner : SelectedFile
  loser : SelectedFile
  winnerOldRating : ℝ
  winnerNewRating : ℝ
  loserOldRating : ℝ
  loserNewRating : ℝ

/-- The static lookup map `filesById` built from the current item list. -/
def filesById (selectedFiles : List SelectedFile) : List (String × SelectedFile) :=
  selectedFiles.map (fun f => (f.id, f))

/-- The initial working map `byId`: each current item with rating and games
count seeded from the materialized ratings (defaulting to 1000 and 0 when the
item has no stored record). -/
noncomputable def replayInit (selectedFiles : List SelectedFile)
    (ratings : List (String × FileEloData)) : List (String × SelectedFile) :=
  selectedFiles.map (fun f =>
    (f.id,
      { f with
        rating :=
          match alookup ratings f.id with
          | some stored => stored.rating
          | none => DEFAULT_RATING
        games :=
          match alookup ratings f.id with
          | some stored => stored.games
          | none => 0 }))

/-- One iteration of the replay loop: events whose `a` or `b` id is absent
from the current item list are skipped; otherwise the Elo update is applied to
the working state (history entry first — using the old ratings — then both
ratings overwritten and both games counts incremented), and draws contribute
no history entry. -/
noncomputable def replayStep (files : List (String × SelectedFile)) (k : ℝ)
    (s : List (String × SelectedFile) × List HistoryType) (ev : EloEvent) :
    List (String × SelectedFile) × List HistoryType :=
  match alookup files ev.a, alookup files ev.b with
  | some fileA, some fileB =>
    match alookup s.1 ev.a, alookup s.1 ev.b with
    | some A, some B =>
      let oldRatingA := A.rating
      let oldRatingB := B.rating
      let res := eloUpdate oldRatingA oldRatingB ev.s k
      let entries :=
        match ev.s with
        | Outcome.winA =>
          s.2 ++ [⟨fileA, fileB, oldRatingA, (res.1 : ℝ), oldRatingB, (res.2 : ℝ)⟩]
        | Outcome.lossA =>
          s.2 ++ [⟨fileB, fileA, oldRatingB, (res.2 : ℝ), oldRatingA, (res.1 : ℝ)⟩]
        | Outcome.draw => s.2
      let m1 := aupdate s.1 ev.a
        (fun it => { it with rating := (res.1 : ℝ), games := it.games + 1 })
      let m2 := aupdate m1 ev.b
        (fun it => { it with rating := (res.2 : ℝ), games := it.games + 1 })
      (m2, entries)
    | _, _ => s
  | _, _ => s

/-- Embedding of `reconstructHistoryFromEvents`: guard on empty inputs, then
replay the event log in order over the seeded working state, collecting the
visible history entries in chronological order. -/
noncomputable def reconstructHistoryFromEvents (selectedFiles : List SelectedFile)
    (store : StoreType) (k : ℝ) : List HistoryType :=
  if selectedFiles.length = 0 then []
  else if store.events.length = 0 then []
  else
    (store.events.foldl (replayStep (filesById selectedFiles) k)
      (replayInit selectedFiles store.ratings, [])).2

theorem alookup_filesById_eq_none {selectedFiles : List SelectedFile} {x : String} :
    alookup (filesById selectedFiles) x = none ↔ x ∉ selectedFiles.map SelectedFile.id := by
  induction selectedFiles with
  | nil => simp [filesById, alookup]
  | cons f fs ih =>
    simp only [filesById, List.map_cons, alookup] at ih ⊢
    by_cases hf : f.id = x
    · simp [hf]
    · simp only [if_neg hf, ih, List.mem_cons]
      constructor
      · intro hnot hor
        rcases hor with heq | hmem
        · exact hf heq.symm
        · exact hnot hmem
      · intro hnot hmem
        exact hnot (Or.inr hmem)

theorem foldl_replay_of_skip {files : List (String × SelectedFile)} {k : ℝ} {ev : EloEvent}
    (hskip : ∀ s, replayStep files k s ev = s) (l1 l2 : List EloEvent)
    (init : List (String × SelectedFile) × List HistoryType) :
    (l1 ++ ev :: l2).foldl (replayStep files k) init =
      (l1 ++ l2).foldl (replayStep files k) init := by
  rw [List.foldl_append, List.foldl_cons, hskip, ← List.foldl_append]

/-- C5: an event whose itemA or itemB id is absent from the current item list
is skipped entirely during history reconstruction: the replay step leaves the
working ratings and games counts unchanged and appends no history entry, and
consequently deleting such an event from the log does not change the
reconstructed history of the remaining events. -/
theorem replay_skips_foreign_events (selectedFiles : List SelectedFile) (k : ℝ) (ev : EloEvent)
    (h : ev.a ∉ selectedFiles.map SelectedFile.id ∨ ev.b ∉ selectedFiles.map SelectedFile.id) :
    (∀ s, replayStep (filesById selectedFiles) k s ev = s) ∧
      ∀ (l1 l2 : List EloEvent) (r : List (String × FileEloData)),
        reconstructHistoryFromEvents selectedFiles ⟨1, l1 ++ ev :: l2, r⟩ k =
          reconstructHistoryFromEvents selectedFiles ⟨1, l1 ++ l2, r⟩ k := by
  have hskip : ∀ s, replayStep (filesById selectedFiles) k s ev = s := by
    intro s
    unfold replayStep
    rcases h with ha | hb
    · rw [alookup_filesById_eq_none.mpr ha]
    · cases hga : alookup (filesById selectedFiles) ev.a with
      | none => rfl
      | some fa => rw [alookup_filesById_eq_none.mpr hb]
  refine ⟨hskip, ?_⟩
  intro l1 l2 r
  by_cases hsf : selectedFiles.length = 0
  · simp [reconstructHistoryFromEvents, hsf]
  · by_cases h12 : (l1 ++ l2).length = 0
    · have h1 : l1 = [] := by
        rw [List.length_append] at h12
        exact List.length_eq_zero.mp (by omega)
      have h2 : l2 = [] := by
        rw [List.length_append] at h12
        exact List.length_eq_zero.mp (by omega)
      subst h1; subst h2
      simp [reconstructHistoryFromEvents, hsf, hskip]
    · have hlen1 : ¬((l1 ++ ev :: l2).length = 0) := by simp
      simp only [reconstructHistoryFromEvents]
      rw [if_neg hsf, if_neg hsf, if_neg hlen1, if_neg h12, foldl_replay_of_skip hskip]

/-- C5 witness: the skip theorem applied to a concrete event naming an id
absent from the concrete item list, the absence discharged by computation. -/
theorem replay_skips_foreign_events_witness :
    ((⟨5, "ghost.md", "itemB.md", Outcome.winA⟩ : EloEvent).a ∉
        sampleItems.map SelectedFile.id ∨
      (⟨5, "ghost.md", "itemB.md", Outcome.winA⟩ : EloEvent).b ∉
        sampleItems.map SelectedFile.id) ∧
      (∀ s, replayStep (filesById sampleItems) 32 s
          ⟨5, "ghost.md", "itemB.md", Outcome.winA⟩ = s) ∧
      ∀ (l1 l2 : List EloEvent) (r : List (String × FileEloData)),
        reconstructHistoryFromEvents sampleItems
            ⟨1, l1 ++ ⟨5, "ghost.md", "itemB.md", Outcome.winA⟩ :: l2, r⟩ 32 =
          reconstructHistoryFromEvents sampleItems ⟨1, l1 ++ l2, r⟩ 32 :=
  ⟨Or.inl (by decide),
    (replay_skips_foreign_events sampleItems 32 ⟨5, "ghost.md", "itemB.md", Outcome.winA⟩
      (Or.inl (by decide))).1,
    (replay_skips_foreign_events sampleItems 32 ⟨5, "ghost.md", "itemB.md", Outcome.winA⟩
      (Or.inl (by decide))).2⟩

set_option maxRecDepth 4000 in
/-- C9: a draw event between two items both present in the current item list
produces no visible history entry but still advances the working state: both
items' working ratings become the Elo-update outputs and both games counts are
incremented (the post-state is exactly the two-key update of the pre-state,
which the fold then passes to the next event). -/
theorem replay_draw_advances_state (files : List (String × SelectedFile)) (k : ℝ)
    (ev : EloEvent) (s : List (String × SelectedFile) × List HistoryType)
    (fa fb A B : SelectedFile)
    (hs : ev.s = Outcome.draw) (hab : ev.a ≠ ev.b)
    (hfa : alookup files ev.a = some fa) (hfb : alookup files ev.b = some fb)
    (hA : alookup s.1 ev.a = some A) (hB : alookup s.1 ev.b = some B) :
    (replayStep files k s ev).2 = s.2 ∧
      alookup (replayStep files k s ev).1 ev.a =
        some { A with rating := ((eloUpdate A.rating B.rating Outcome.draw k).1 : ℝ),
                      games := A.games + 1 } ∧
      alookup (replayStep files k s ev).1 ev.b =
        some { B with rating := ((eloUpdate A.rating B.rating Outcome.draw k).2 : ℝ),
                      games := B.games + 1 } ∧
      ∀ key, key ≠ ev.a → key ≠ ev.b →
        alookup (replayStep files k s ev).1 key = alookup s.1 key := by
  have hstep : replayStep files k s ev =
      (aupdate
          (aupdate s.1 ev.a
            (fun it =>
              { it with rating := ((eloUpdate A.rating B.rating Outcome.draw k).1 : ℝ),
                        games := it.games + 1 }))
          ev.b
          (fun it =>
            { it with rating := ((eloUpdate A.rating B.rating Outcome.draw k).2 : ℝ),
                      games := it.games + 1 }),
        s.2) := by
    unfold replayStep
    rw [hs, hfa, hfb, hA, hB]
  rw [hstep]
  refine ⟨rfl, ?_, ?_, ?_⟩
  · rw [alookup_aupdate_of_ne _ _ hab, alookup_aupdate_self, hA]
    rfl
  · rw [alookup_aupdate_self, alookup_aupdate_of_ne _ _ (Ne.symm hab), hB]
    rfl
  · intro key hka hkb
    rw [alookup_aupdate_of_ne _ _ hkb, alookup_aupdate_of_ne _ _ hka]

/-- C9 witness: the draw theorem applied to a concrete draw event over the
concrete two-item pool, all lookups and side conditions discharged by
computation. -/
theorem replay_draw_advances_state_witness :
    (⟨7, "itemA.md", "itemB.md", Outcome.draw⟩ : EloEvent).s = Outcome.draw ∧
      ("itemA.md" : String) ≠ "itemB.md" ∧
      ((replayStep (filesById sampleItems) 32 (filesById sampleItems, [])
            ⟨7, "itemA.md", "itemB.md", Outcome.draw⟩).2 = ([] : List HistoryType) ∧
        alookup (replayStep (filesById sampleItems) 32 (filesById sampleItems, [])
              ⟨7, "itemA.md", "itemB.md", Outcome.draw⟩).1 "itemA.md" =
          some ⟨"itemA.md", "itemA", ((eloUpdate 1000 1000 Outcome.draw 32).1 : ℝ), 0 + 1,
            "default", none⟩ ∧
        alookup (replayStep (filesById sampleItems) 32 (filesById sampleItems, [])
              ⟨7, "itemA.md", "itemB.md", Outcome.draw⟩).1 "itemB.md" =
          some ⟨"itemB.md", "itemB", ((eloUpdate 1000 1000 Outcome.draw 32).2 : ℝ), 0 + 1,
            "default", none⟩ ∧
        ∀ key, key ≠ "itemA.md" → key ≠ "itemB.md" →
          alookup (replayStep (filesById sampleItems) 32 (filesById sampleItems, [])
                ⟨7, "itemA.md", "itemB.md", Outcome.draw⟩).1 key =
            alookup (filesById sampleItems) key) :=
  ⟨rfl, by decide,
    replay_draw_advances_state (filesById sampleItems) 32
      ⟨7, "itemA.md", "itemB.md", Outcome.draw⟩ (filesById sampleItems, [])
      ⟨"itemA.md", "itemA", 1000, 0, "default", none⟩
      ⟨"itemB.md", "itemB", 1000, 0, "default", none⟩
      ⟨"itemA.md", "itemA", 1000, 0, "default", none⟩
      ⟨"itemB.md", "itemB", 1000, 0, "default", none⟩
      rfl (by decide) rfl rfl rfl rfl⟩

/-! ## Persistence layer (src/storage.ts)

The host vault adapter is modelled as explicit state: `files` maps a path to
the parse outcome of its contents (`none` when the file does not exist),
`readFails` marks paths whose `adapter.read` call throws, `writeFails` marks
paths whose `adapter.write` call throws, and `mkdirFails` makes
`adapter.mkdir` throw. Parsed contents are classified by shape the way the
source's runtime checks classify them: `eventsArr` is JSON parsing to an
array (of events), `ratingsObj` is JSON parsing to a non-null object (a
ratings record), `otherJson` parses to neither, and `malformed` is text on
which `JSON.parse` throws. (The JS check `typeof data === 'object'` would
also accept an array read from a ratings path; the abstraction folds that
corner into the empty record, which no claim depends on.) -/

inductive RawDoc where
  | eventsArr : List EloEvent → RawDoc
  | ratingsObj : List (String × FileEloData) → RawDoc
  | otherJson : RawDoc
  | malformed : RawDoc

structure Vault where
  configDir : String
  files : String → Option RawDoc
  readFails : String → Bool
  writeFails : String → Bool
  mkdirFails : Bool

def getStorageBasePath (vault : Vault) : String :=
  vault.configDir ++ "/plugins/obsidian-elo-compare/history"

def getEventsPath (vault : Vault) (comparisonType : String) : String :=
  getStorageBasePath vault ++ "/events-" ++ comparisonType ++ ".json"

def getRatingsPath (vault : Vault) (comparisonType : String) : String :=
  getStorageBasePath vault ++ "/ratings-" ++ comparisonType ++ ".json"

/-- Embedding of `readEvents` (src/storage.ts lines 19-31): an absent file, a
throwing read, a parse failure and a non-array shape all degrade to the empty
list (the try/catch logs and falls through to `return []`). -/
def readEvents (vault : Vault) (comparisonType : String) : List EloEvent :=
  let eventsPath := getEventsPath vault comparisonType
  match vault.files eventsPath with
  | none => []
  | some doc =>
    if vault.readFails eventsPath then []
    else
      match doc with
      | RawDoc.eventsArr data => data
      | _ => []

/-- Embedding of `readRatings` (lines 47-59), degrading to the empty record on
absence, read failure, parse failure or wrong shape. -/
def readRatings (vault : Vault) (comparisonType : String) : List (String × FileEloData) :=
  let ratingsPath := getRatingsPath vault comparisonType
  match vault.files ratingsPath with
  | none => []
  | some doc =>
    if vault.readFails ratingsPath then []
    else
      match doc with
      | RawDoc.ratingsObj data => data
      | _ => []

/-- Embedding of `writeEvents` (lines 36-42): `mkdir` then `write`, either of
which can throw (`none`); on success the path holds the serialized array. -/
def writeEvents (vault : Vault) (events : List EloEvent) (comparisonType : String) :
    Option Vault :=
  if vault.mkdirFails then none
  else if vault.writeFails (getEventsPath vault comparisonType) then none
  else some { vault with
    files := fun p =>
      if p = getEventsPath vault comparisonType then some (RawDoc.eventsArr events)
      else vault.files p }

/-- Embedding of `writeRatings` (lines 64-74). -/
def writeRatings (vault : Vault) (ratings : List (String × FileEloData))
    (comparisonType : String) : Option Vault :=
  if vault.mkdirFails then none
  else if vault.writeFails (getRatingsPath vault comparisonType) then none
  else some { vault with
    files := fun p =>
      if p = getRatingsPath vault comparisonType then some (RawDoc.ratingsObj ratings)
      else vault.files p }

/-- The legacy single-pool migration inside `readStore` (lines 94-126): read
`events.json` and `ratings.json` and copy non-empty well-formed contents to
the `default`-suffixed documents. Any throw inside the migration's try block
(read failure, parse failure or write failure) reaches the catch handler,
modelled by `none`. -/
def migrateOldStorage (vault : Vault) : Option Vault :=
  let step1 : Option Vault :=
    match vault.files (getStorageBasePath vault ++ "/events.json") with
    | none => some vault
    | some doc =>
      if vault.readFails (getStorageBasePath vault ++ "/events.json") then none
      else
        match doc with
        | RawDoc.eventsArr data =>
          if 0 < data.length then writeEvents vault data "default" else some vault
        | RawDoc.malformed => none
        | _ => some vault
  match step1 with
  | none => none
  | some v1 =>
    match v1.files (getStorageBasePath v1 ++ "/ratings.json") with
    | none => some v1
    | some doc =>
      if v1.readFails (getStorageBasePath v1 ++ "/ratings.json") then none
      else
        match doc with
        | RawDoc.ratingsObj data =>
          if 0 < data.length then writeRatings v1 data "default" else some v1
        | RawDoc.malformed => none
        | _ => some v1

/-- Embedding of `readStore` (lines 79-133): read both documents from the new
location; if either holds data, return them as the store; otherwise, for the
`default` type, attempt the legacy migration and re-read, any migration throw
being caught and falling through to the empty default store. The embedding is
a total function of the vault state: every throwing adapter operation is
modelled explicitly, so `readStore` always returns a store and never
propagates a failure. -/
def readStore (vault : Vault) (comparisonType : String) : StoreType :=
  if 0 < (readEvents vault comparisonType).length ∨
      0 < (readRatings vault comparisonType).length then
    ⟨1, readEvents vault comparisonType, readRatings vault comparisonType⟩
  else if comparisonType = "default" then
    match migrateOldStorage vault with
    | none => ⟨1, [], []⟩
    | some v1 =>
      if 0 < (readEvents v1 comparisonType).length ∨
          0 < (readRatings v1 comparisonType).length then
        ⟨1, readEvents v1 comparisonType, readRatings v1 comparisonType⟩
      else ⟨1, [], []⟩
  else ⟨1, [], []⟩

/-- The events document is absent or unparsable. -/
def eventsDocBroken (vault : Vault) (comparisonType : String) : Prop :=
  vault.files (getEventsPath vault comparisonType) = none ∨
    vault.readFails (getEventsPath vault comparisonType) = true ∨
    vault.files (getEventsPath vault comparisonType) = some RawDoc.malformed

/-- The ratings document is absent or unparsable. -/
def ratingsDocBroken (vault : Vault) (comparisonType : String) : Prop :=
  vault.files (getRatingsPath vault comparisonType) = none ∨
    vault.readFails (getRatingsPath vault comparisonType) = true ∨
    vault.files (getRatingsPath vault comparisonType) = some RawDoc.malformed

/-- C4 (amended): `readStore` is a total function of the modelled vault state
— every throwing adapter operation is represented and every path returns a
store, so no failure propagates to the caller. An absent or unparsable
document degrades to its own empty default (`[]` for events, `{}` for
ratings) while the other document's parsed contents are preserved; in the
absence of legacy single-pool documents the result is exactly the pair of
per-document reads, so a comparison type with no existing files yields the
empty default store `{events: [], ratings: {}}`. -/
theorem readStore_degrades_per_document (vault : Vault) (comparisonType : String)
    (hleg1 : vault.files (getStorageBasePath vault ++ "/events.json") = none)
    (hleg2 : vault.files (getStorageBasePath vault ++ "/ratings.json") = none) :
    readStore vault comparisonType =
        ⟨1, readEvents vault comparisonType, readRatings vault comparisonType⟩ ∧
      (eventsDocBroken vault comparisonType → readEvents vault comparisonType = []) ∧
      (ratingsDocBroken vault comparisonType → readRatings vault comparisonType = []) := by
  have hbroken : ∀ (hb : eventsDocBroken vault comparisonType),
      readEvents vault comparisonType = [] := by
    intro hb
    simp only [readEvents]
    rcases hb with h | h | h
    · rw [h]
    · cases hf : vault.files (getEventsPath vault comparisonType) with
      | none => rfl
      | some doc => simp [h]
    · rw [h]
      cases hrf : vault.readFails (getEventsPath vault comparisonType) <;> simp [hrf]
  have hbrokenR : ∀ (hb : ratingsDocBroken vault comparisonType),
      readRatings vault comparisonType = [] := by
    intro hb
    simp only [readRatings]
    rcases hb with h | h | h
    · rw [h]
    · cases hf : vault.files (getRatingsPath vault comparisonType) with
      | none => rfl
      | some doc => simp [h]
    · rw [h]
      cases hrf : vault.readFails (getRatingsPath vault comparisonType) <;> simp [hrf]
  refine ⟨?_, hbroken, hbrokenR⟩
  unfold readStore
  by_cases hdata : 0 < (readEvents vault comparisonType).length ∨
      0 < (readRatings vault comparisonType).length
  · rw [if_pos hdata]
  · push_neg at hdata
    have he : readEvents vault comparisonType = [] := List.length_eq_zero.mp (by omega)
    have hr : readRatings vault comparisonType = [] := List.length_eq_zero.mp (by omega)
    have hnd : ¬(0 < (readEvents vault comparisonType).length ∨
        0 < (readRatings vault comparisonType).length) := by
      push_neg
      exact hdata
    rw [if_neg hnd]
    by_cases hdef : comparisonType = "default"
    · rw [if_pos hdef]
      have hmig : migrateOldStorage vault = some vault := by
        simp only [migrateOldStorage, hleg1, hleg2]
      simp only [hmig]
      rw [if_neg hnd, he, hr]
    · rw [if_neg hdef, he, hr]

/-- Concrete vault with no files at all, for the C4 witness. -/
def emptyVault : Vault :=
  { configDir := "cfg"
    files := fun _ => none
    readFails := fun _ => false
    writeFails := fun _ => false
    mkdirFails := false }

/-- C4 witness: the amended theorem applied to a vault with no files at all;
in particular the returned store is the empty default `{events: [], ratings:
{}}`. -/
theorem readStore_degrades_per_document_witness :
    emptyVault.files (getStorageBasePath emptyVault ++ "/events.json") = none ∧
      emptyVault.files (getStorageBasePath emptyVault ++ "/ratings.json") = none ∧
      (readStore emptyVault "default" =
          ⟨1, readEvents emptyVault "default", readRatings emptyVault "default"⟩ ∧
        (eventsDocBroken emptyVault "default" → readEvents emptyVault "default" = []) ∧
        (ratingsDocBroken emptyVault "default" → readRatings emptyVault "default" = [])) ∧
      readStore emptyVault "default" = ⟨1, [], []⟩ :=
  ⟨rfl, rfl, readStore_degrades_per_document emptyVault "default" rfl rfl, rfl⟩

/-- Concrete vault for the C4 counterexample: a parsable nonempty events
document next to an unparsable ratings document. -/
def cexVault : Vault :=
  { configDir := "cfg"
    files := fun p =>
      if p = "cfg/plugins/obsidian-elo-compare/history/events-default.json" then
        some (RawDoc.eventsArr [⟨3, "x.md", "y.md", Outcome.winA⟩])
      else if p = "cfg/plugins/obsidian-elo-compare/history/ratings-default.json" then
        some RawDoc.malformed
      else none
    readFails := fun _ => false
    writeFails := fun _ => false
    mkdirFails := false }

/-- C4 counterexample: with the ratings document unparsable but the events
document intact, `readStore` keeps the parsed events and only the ratings
degrade — the result is not the empty default store, contradicting the claim
that either document being absent or unparsable yields
`{events: [], ratings: {}}`. -/
theorem readStore_empty_default_counterexample :
    cexVault.files (getRatingsPath cexVault "default") = some RawDoc.malformed ∧
      readStore cexVault "default" = ⟨1, [⟨3, "x.md", "y.md", Outcome.winA⟩], []⟩ ∧
      (readStore cexVault "default").events ≠ [] := by
  have h2 : readStore cexVault "default" = ⟨1, [⟨3, "x.md", "y.md", Outcome.winA⟩], []⟩ := rfl
  refine ⟨rfl, h2, ?_⟩
  rw [h2]
  simp
